import Mathlib

/-!
Verification development for the `tgr` Telegram router (`router.go`).

Shallow embedding notes:
* Go strings are modelled as `List Char` (`Str`); Go's `strings.Split`,
  `strings.SplitN(s, sep, 2)` and `strings.Index` become structural
  recursions over the character list.
* Handlers (`HandlerFunc`) are modelled by their observable behaviour in a
  dispatch: a handler executes (recorded by appending its identifier to a
  trace) and either calls `Abort` or not (`Handler.ab`).  `Context.Next`'s
  loop runs the chain left to right, skipping everything once the context is
  aborted, which is exactly `runChain` below.
* `applyMiddlewares` in the source returns a closure that, each time it is
  invoked, re-reads `t.middlewares` under `RLock` and builds the chain
  `middlewares ++ [handler]`.  The cached ("composed") table therefore only
  determines the terminal handler; the middleware part is taken at
  execution time.  Accordingly the composed tables below store the
  registered handlers and the wrapping happens in `runCategory` /
  `runRouteEntry`, which receive the router's *current* middleware list.
* Go maps keyed by strings/structs are modelled as association lists with
  last-write-wins lookup (`tlookup`); map iteration order (used only for
  the predicate-matcher buckets) is unspecified in Go and fixed to
  registration order here, which none of the settled claims depend on.
* `float64` coordinates are modelled as `Int`; no claim depends on
  floating-point arithmetic, only on the comparison structure.
-/

namespace Tgr

/-- Character-list model of Go strings. -/
abbrev Str := List Char

/-- Convenience: turn a Lean string literal into the model type. -/
def str (s : String) : Str := s.toList

/-- Model of `strings.Split(s, sep)` for a one-character separator:
always returns at least one part; empty input gives `[[]]`. -/
def splitOnChar (sep : Char) : Str → List Str
  | [] => [[]]
  | c :: rest =>
    let r := splitOnChar sep rest
    if c = sep then [] :: r
    else
      match r with
      | [] => [[c]]
      | p :: ps => (c :: p) :: ps

/-- Join parts with a one-character separator (inverse of `splitOnChar`
when no part contains the separator). -/
def joinPartsBy (sep : Char) : List Str → Str
  | [] => []
  | [p] => p
  | p :: q :: rest => p ++ sep :: joinPartsBy sep (q :: rest)

/-- Split at the first occurrence of `sep`: models `strings.Index` plus
slicing (for `?` in callback data) and `strings.SplitN(s, sep, 2)` with a
hit (for `=` in query pairs).  `none` means the character does not occur. -/
def splitFirstChar (sep : Char) : Str → Option (Str × Str)
  | [] => none
  | c :: rest =>
    if c = sep then some ([], rest)
    else (splitFirstChar sep rest).map fun pq => (c :: pq.1, pq.2)

/-- Hexadecimal digit test, as in Go's `ishex`. -/
def isHexDigit (c : Char) : Bool :=
  ('0' ≤ c ∧ c ≤ '9') ∨ ('a' ≤ c ∧ c ≤ 'f') ∨ ('A' ≤ c ∧ c ≤ 'F')

/-- Value of a hex digit, as in Go's `unhex`. -/
def unhex (c : Char) : Nat :=
  if '0' ≤ c ∧ c ≤ '9' then c.toNat - '0'.toNat
  else if 'a' ≤ c ∧ c ≤ 'f' then c.toNat - 'a'.toNat + 10
  else if 'A' ≤ c ∧ c ≤ 'F' then c.toNat - 'A'.toNat + 10
  else 0

/-- Model of Go `url.QueryUnescape`: `%XY` with two hex digits decodes to
the byte `XY`, `+` becomes a space, anything else is copied.  A `%` not
followed by two hex digits is an error (`none`); Go then returns the pair
`("", err)`, i.e. the accompanying string result is empty.  (Go operates
on the UTF-8 bytes of the string; the per-character model coincides with
it on ASCII input.) -/
def queryUnescape : Str → Option Str
  | [] => some []
  | '%' :: a :: b :: rest =>
    if isHexDigit a ∧ isHexDigit b then
      (queryUnescape rest).map fun r => Char.ofNat (16 * unhex a + unhex b) :: r
    else none
  | '%' :: _ :: [] => none
  | ['%'] => none
  | '+' :: rest => (queryUnescape rest).map fun r => ' ' :: r
  | c :: rest => (queryUnescape rest).map fun r => c :: r

/-- What `parseQuery` actually stores: the Go code ignores the error return
of `url.QueryUnescape`, whose string result on a malformed escape is `""`. -/
def unescapeOrEmpty (s : Str) : Str := (queryUnescape s).getD []

/-- One `key=value` pair of `parseQuery`: pairs without `=` are skipped
(`SplitN` yields a single element), both components are percent-decoded
with the error discarded. -/
def decodePair (pair : Str) : Option (Str × Str) :=
  (splitFirstChar '=' pair).map fun kv => (unescapeOrEmpty kv.1, unescapeOrEmpty kv.2)

/-- Model of `parseQuery` in `router.go`: the resulting Go map is
represented by its write sequence (later writes shadow earlier ones, see
`tlookup`). -/
def parseQuery (q : Str) : List (Str × Str) :=
  if q = [] then []
  else (splitOnChar '&' q).filterMap decodePair

/-- Lookup in a write-sequence table with Go-map semantics: the last write
to a key wins. -/
def tlookup (tbl : List (Str × Str)) (k : Str) : Option Str :=
  tbl.foldl (fun acc e => if e.1 = k then some e.2 else acc) none

/-! ## Pattern matcher (`compileRoutePattern`, `parseRouteParams`) -/

/-- A compiled pattern segment.  `compileRoutePattern` turns a `:name` part
into the regex group `([^/]+)`, a bare `*` into `.*`, and keeps other parts
verbatim.  Note: the Go code splices static parts into a regular
expression unescaped; this model treats them as literals, which agrees
with the code whenever static parts contain no regex metacharacters
(`litSafe` below captures that side condition). -/
inductive Seg where
  | lit (s : Str)
  | param
  | wild
  deriving DecidableEq

/-- Does a part start with `:` (Go `strings.HasPrefix(part, ":")`)? -/
def isParamPart : Str → Bool
  | [] => false
  | c :: _ => c = ':'

/-- Classify one slash-separated part of a route pattern. -/
def toSeg (part : Str) : Seg :=
  if isParamPart part then Seg.param
  else if part = ['*'] then Seg.wild
  else Seg.lit part

/-- Model of `compileRoutePattern`: the anchored regex
`^seg1/seg2/.../segn$` is represented by its segment list; matching
semantics are given by `segsMatch`. -/
def compileRoutePattern (pattern : Str) : List Seg :=
  (splitOnChar '/' pattern).map toSeg

/-- The parameter name contributed by one part: `part[1:]` when the part
starts with `:`, nothing otherwise. -/
def paramName (part : Str) : Option Str :=
  match part with
  | [] => none
  | c :: name => if c = ':' then some name else none

/-- Model of `parseRouteParams`: ordered names of the `:name` parts. -/
def parseRouteParams (pattern : Str) : List Str :=
  (splitOnChar '/' pattern).filterMap paramName

/-- Regex metacharacters of RE2; a static part containing none of these is
matched literally by the compiled regex. -/
def isRegexMeta (c : Char) : Bool :=
  c ∈ ['\\', '.', '+', '*', '?', '(', ')', '|', '[', ']', '\x7b', '\x7d', '^', '$']

/-- Side condition under which the segment model coincides with the
compiled regex: every static part is free of regex metacharacters. -/
def litSafe (pattern : Str) : Prop :=
  ∀ part ∈ splitOnChar '/' pattern,
    isParamPart part = true ∨ part = ['*'] ∨ ∀ c ∈ part, isRegexMeta c = false

instance (pattern : Str) : Decidable (litSafe pattern) := by
  unfold litSafe; infer_instance

/-- Matching of the compiled (anchored) regex against the subject's
slash-separated parts.  A literal matches exactly its own part, `([^/]+)`
matches exactly one non-empty part and captures it, `.*` spans one or more
consecutive parts (it may absorb `/`).  For `.*` the greedy branch is
tried first, mirroring RE2's leftmost-greedy submatch semantics. -/
def segsMatchAux : List Str → List Seg → Option (List Str)
  | [], [] => some []
  | [], _ :: _ => none
  | _ :: _, [] => none
  | p :: ps, Seg.lit t :: segs => if p = t then segsMatchAux ps segs else none
  | p :: ps, Seg.param :: segs =>
    if p = [] then none else (segsMatchAux ps segs).map fun vs => p :: vs
  | _ :: ps, Seg.wild :: segs =>
    match segsMatchAux ps (Seg.wild :: segs) with
    | some vs => some vs
    | none => segsMatchAux ps segs

/-- See `segsMatchAux`; argument order as in the Go call site. -/
def segsMatch (segs : List Seg) (parts : List Str) : Option (List Str) :=
  segsMatchAux parts segs

/-- Full-match attempt of a compiled route against a subject string:
`FindStringSubmatch` of the anchored regex, returning the captures. -/
def matchRoute (segs : List Seg) (subject : Str) : Option (List Str) :=
  segsMatch segs (splitOnChar '/' subject)

/-- The subject the specification builds from a pattern: each `:name` part
is replaced by the corresponding substitution value,`*` and static parts
are kept verbatim. -/
def fillParts : List Str → List Str → List Str
  | [], _ => []
  | part :: parts, vals =>
    if isParamPart part then
      match vals with
      | v :: vs => v :: fillParts parts vs
      | [] => [] :: fillParts parts []
    else part :: fillParts parts vals

/-- Subject generated from `pattern` by substituting `vals` for the
captures, in declaration order. -/
def buildSubject (pattern : Str) (vals : List Str) : Str :=
  joinPartsBy '/' (fillParts (splitOnChar '/' pattern) vals)

/-- The path-parameter writes `HandleUpdate` performs for a matched route:
`params[name] = matches[i+1]` for each declared name, in order (the bound
check `i+1 < len(matches)` is the truncation `List.zip` performs). -/
def mkParams (names : List Str) (vals : List Str) : List (Str × Str) :=
  names.zip vals

/-! ## Handlers, context state and chain execution -/

/-- Observable behaviour of one `HandlerFunc` in a dispatch: it executes
(its identifier is appended to the trace) and either calls `Abort` or
not. -/
structure Handler where
  id : Nat
  ab : Bool
  deriving DecidableEq

/-- The mutable part of `Context` relevant to dispatch, plus a ghost trace
of executed handler identifiers.  The chain slice and cursor of `Context`
are represented by the functional recursion of `runChain`. -/
structure St where
  aborted : Bool
  trace : List Nat
  params : List (Str × Str)
  query : List (Str × Str)
  deriving DecidableEq

/-- The fresh context `HandleUpdate` allocates per update. -/
def initSt : St :=
  { aborted := false, trace := [], params := [], query := [] }

/-- Execution of a handler chain by `Context.Next`: the cursor walks the
chain left to right; before each handler `IsAborted` is consulted, so an
abort stops everything after it. -/
def runChain (chain : List Handler) (s : St) : St :=
  match chain with
  | [] => s
  | h :: rest =>
    if s.aborted then s
    else runChain rest { s with trace := s.trace ++ [h.id], aborted := h.ab }

/-- Execution of one composed ("wrapped") category entry: the closure made
by `applyMiddlewares` installs the chain `middlewares ++ [handler]` —
reading the router's middleware list at call time — and runs it. -/
def runWrapped (mws : List Handler) (h : Handler) (s : St) : St :=
  runChain (mws ++ [h]) s

/-- The per-category dispatch loop
`for _, h := range handlersC { h(c); if c.IsAborted() { return } }`. -/
def runCategory (mws : List Handler) (hs : List Handler) (s : St) : St :=
  match hs with
  | [] => s
  | h :: rest =>
    let s1 := runWrapped mws h s
    if s1.aborted then s1 else runCategory mws rest s1

/-- Execution of one composed callback-route entry: the middleware chain
runs first; if it did not abort, the route's registration closure replaces
the context chain with the handlers given to `Callback` and runs them. -/
def runRouteEntry (mws : List Handler) (routeHandlers : List Handler) (s : St) : St :=
  let s1 := runChain mws s
  if s1.aborted then s1 else runChain routeHandlers s1

/-! ## Registration store and composed cache -/

/-- A registered callback route (`CallbackRoute`): the pattern string and
the handlers passed to `Callback` (held by the registration closure).
Compiled matcher and parameter names are recomputed from the pattern,
exactly as registration computes them. -/
structure CallbackRoute where
  pattern : Str
  handlers : List Handler
  deriving DecidableEq

/-- A registered regex command route (`CommandRegexRoute`); the compiled
regex is abstracted by its match predicate on the command name. -/
structure CommandRegexRoute where
  rmatch : Str → Bool
  handlers : List Handler

/-- A `LocationRange` predicate key (coordinates as `Int`, see header). -/
structure LocationRange where
  minLat : Int
  maxLat : Int
  minLon : Int
  maxLon : Int
  deriving DecidableEq

/-- The fields of `TelegramRouter` needed by the claims: registration
store plus composed cache and dirty flag.  Composed entries store the
registered handlers; middleware wrapping is applied at execution time by
`runCategory`/`runRouteEntry` (see header). -/
structure Router where
  middlewares : List Handler
  updateHandlers : List (List Handler)
  textHandlers : List Handler
  commandHandlers : List (Str × List Handler)
  commandRegexRoutes : List CommandRegexRoute
  callbackRoutes : List CallbackRoute
  callbackHandlers : List Handler
  locationHandlers : List Handler
  liveLocationHandlers : List Handler
  locationRangeHandlers : List (LocationRange × List Handler)
  composedDirty : Bool
  textHandlersC : List Handler
  commandHandlersC : List (Str × List Handler)
  commandRegexRoutesC : List CommandRegexRoute
  callbackRoutesC : List CallbackRoute
  callbackHandlersC : List Handler
  locationHandlersC : List Handler
  liveLocationHandlersC : List Handler
  locationRangeHandlersC : List (LocationRange × List Handler)

/-- `NewTelegramRouter`: empty registration store, clean flag, empty
composed cache. -/
def mkRouter : Router :=
  { middlewares := [], updateHandlers := [], textHandlers := [],
    commandHandlers := [], commandRegexRoutes := [], callbackRoutes := [],
    callbackHandlers := [], locationHandlers := [], liveLocationHandlers := [],
    locationRangeHandlers := [], composedDirty := false,
    textHandlersC := [], commandHandlersC := [], commandRegexRoutesC := [],
    callbackRoutesC := [], callbackHandlersC := [], locationHandlersC := [],
    liveLocationHandlersC := [], locationRangeHandlersC := [] }

/-- Go-map lookup for the command table (keys are unique in a Go map, so
first-match lookup on the association list is faithful). -/
def clookup (tbl : List (Str × List Handler)) (k : Str) : Option (List Handler) :=
  (tbl.find? fun e => e.1 == k).map (·.2)

/-- Append `handlers` under the key `command` (Go
`t.commandHandlers[command] = append(..., handlers...)`). -/
def mapAppend (tbl : List (Str × List Handler)) (k : Str) (hs : List Handler) :
    List (Str × List Handler) :=
  match tbl with
  | [] => [(k, hs)]
  | e :: rest => if e.1 = k then (e.1, e.2 ++ hs) :: rest else e :: mapAppend rest k hs

/-- `Use`: append global middleware, mark the cache dirty. -/
def Router.use (r : Router) (mws : List Handler) : Router :=
  { r with middlewares := r.middlewares ++ mws, composedDirty := true }

/-- `Text` registration. -/
def Router.text (r : Router) (hs : List Handler) : Router :=
  { r with textHandlers := r.textHandlers ++ hs, composedDirty := true }

/-- `Command` registration. -/
def Router.command (r : Router) (cmd : Str) (hs : List Handler) : Router :=
  { r with commandHandlers := mapAppend r.commandHandlers cmd hs, composedDirty := true }

/-- `CommandRegex` registration. -/
def Router.commandRegex (r : Router) (m : Str → Bool) (hs : List Handler) : Router :=
  { r with commandRegexRoutes := r.commandRegexRoutes ++ [⟨m, hs⟩], composedDirty := true }

/-- `Callback` registration. -/
def Router.callback (r : Router) (pattern : Str) (hs : List Handler) : Router :=
  { r with callbackRoutes := r.callbackRoutes ++ [⟨pattern, hs⟩], composedDirty := true }

/-- `Location` registration. -/
def Router.location (r : Router) (hs : List Handler) : Router :=
  { r with locationHandlers := r.locationHandlers ++ hs, composedDirty := true }

/-- `LiveLocation` registration. -/
def Router.liveLocation (r : Router) (hs : List Handler) : Router :=
  { r with liveLocationHandlers := r.liveLocationHandlers ++ hs, composedDirty := true }

/-- `OnUpdate` registration: one closure per call, covering the whole
handler group given to that call. -/
def Router.onUpdate (r : Router) (hs : List Handler) : Router :=
  { r with updateHandlers := r.updateHandlers ++ [hs] }

/-- Model of `composeHandlers`: a no-op unless the dirty flag is set;
otherwise every composed table is rebuilt from the registration store and
the flag cleared.  A Go composed entry is the closure
`t.applyMiddlewares(h)`, whose behaviour is fully determined by the
underlying handler `h` and the router's middleware list at call time, so
the rebuilt tables are the registration lists themselves (`wrapMany`'s
nil-for-empty convention is invisible at this level). -/
def composeHandlers (r : Router) : Router :=
  if r.composedDirty then
    { r with
      textHandlersC := r.textHandlers,
      commandHandlersC := r.commandHandlers,
      commandRegexRoutesC := r.commandRegexRoutes,
      callbackRoutesC := r.callbackRoutes,
      callbackHandlersC := r.callbackHandlers,
      locationHandlersC := r.locationHandlers,
      liveLocationHandlersC := r.liveLocationHandlers,
      locationRangeHandlersC := r.locationRangeHandlers,
      composedDirty := false }
  else r

/-! ## Update model

Only the payload fields the claims exercise are modelled; the dispatch
blocks conditioned on other payloads (group events, payments, inline
queries, media, contact, poll, game, channel post, …) cannot fire for
these updates and are omitted, preserving the relative order of the
remaining blocks. -/

/-- A message location (`tgbotapi.Location`): coordinates and
`LivePeriod`. -/
structure Loc where
  lat : Int
  lon : Int
  livePeriod : Nat
  deriving DecidableEq

/-- The modelled message payload.  `isCommand`/`command` abstract
`Message.IsCommand()`/`Message.Command()` (entity-derived). -/
structure Msg where
  text : Str
  isCommand : Bool
  command : Str
  location : Option Loc
  deriving DecidableEq

/-- The modelled update: at most a message and a callback query (whose
`Data` string is the subject). -/
structure Update where
  message : Option Msg
  callbackQuery : Option Str
  deriving DecidableEq

/-! ## Dispatch (`HandleUpdate`) -/

/-- The path part matched against callback routes: everything before the
first `?`, or the whole data if there is none. -/
def pathOf (d : Str) : Str :=
  match splitFirstChar '?' d with
  | some pq => pq.1
  | none => d

/-- The callback-route loop of `HandleUpdate`: every registered route is
tried in order; on a match the freshly built parameter table is installed
and the composed route entry runs; an abort returns, otherwise the loop
continues with the *next* route — there is no break on match. -/
def runCallbackRoutes (mws : List Handler) (routes : List CallbackRoute)
    (path : Str) (s : St) : St :=
  match routes with
  | [] => s
  | rt :: rest =>
    match matchRoute (compileRoutePattern rt.pattern) path with
    | some vals =>
      let s1 := runRouteEntry mws rt.handlers
        { s with params := mkParams (parseRouteParams rt.pattern) vals }
      if s1.aborted then s1 else runCallbackRoutes mws rest path s1
    | none => runCallbackRoutes mws rest path s

/-- The callback-query block: split off and parse the query string if a
`?` is present, run all matching routes, then the generic callback
handlers; the block always returns. -/
def callbackStep (r : Router) (d : Str) (s : St) : St :=
  let s0 :=
    match splitFirstChar '?' d with
    | some pq => { s with query := parseQuery pq.2 }
    | none => s
  let s1 := runCallbackRoutes r.middlewares r.callbackRoutesC (pathOf d) s0
  if s1.aborted then s1
  else runCategory r.middlewares r.callbackHandlersC s1

/-- Is the location inside the range key (inclusive bounds)? -/
def inRange (rg : LocationRange) (loc : Loc) : Bool :=
  rg.minLat ≤ loc.lat ∧ loc.lat ≤ rg.maxLat ∧ rg.minLon ≤ loc.lon ∧ loc.lon ≤ rg.maxLon

/-- The range-bucket loop of the location block: every bucket whose range
contains the location runs its handler list (fan-out, no break). -/
def runRangeBuckets (mws : List Handler)
    (buckets : List (LocationRange × List Handler)) (loc : Loc) (s : St) : St :=
  match buckets with
  | [] => s
  | (rg, hs) :: rest =>
    if inRange rg loc then
      let s1 := runCategory mws hs s
      if s1.aborted then s1 else runRangeBuckets mws rest loc s1
    else runRangeBuckets mws rest loc s

/-- The location block (`update.Message.Location != nil`): range buckets,
then the generic location handlers, then return. -/
def locationStep (r : Router) (loc : Loc) (s : St) : St :=
  let s1 := runRangeBuckets r.middlewares r.locationRangeHandlersC loc s
  if s1.aborted then s1
  else runCategory r.middlewares r.locationHandlersC s1

/-- The dispatch tail after the location block (contact, poll, quiz, game,
voice, video-note and animation blocks cannot fire for modelled updates).
It contains the live-location block: `Location != nil && LivePeriod > 0`.
Note that this function is only reached when the message has *no*
location, because the location block above it already returned. -/
def afterLocation (r : Router) (u : Update) (s : St) : St :=
  match u.message with
  | some m =>
    match m.location with
    | some loc =>
      if loc.livePeriod > 0 then runCategory r.middlewares r.liveLocationHandlersC s
      else s
    | none => s
  | none => s

/-- Dispatch from the location block on. -/
def afterCallback (r : Router) (u : Update) (s : St) : St :=
  match u.message with
  | some m =>
    match m.location with
    | some loc => locationStep r loc s
    | none => afterLocation r u s
  | none => afterLocation r u s

/-- Dispatch from the callback-query block on (the inline and media blocks
between text and callback cannot fire for modelled updates). -/
def afterText (r : Router) (u : Update) (s : St) : St :=
  match u.callbackQuery with
  | some d => callbackStep r d s
  | none => afterCallback r u s

/-- Dispatch from the text block on: a message with non-empty text runs
all text handlers and returns. -/
def afterCommand (r : Router) (u : Update) (s : St) : St :=
  match u.message with
  | some m =>
    if m.text ≠ [] then runCategory r.middlewares r.textHandlersC s
    else afterText r u s
  | none => afterText r u s

/-- First regex command route whose regex matches the command name. -/
def findFirstRegex (routes : List CommandRegexRoute) (cmd : Str) :
    Option CommandRegexRoute :=
  routes.find? fun rt => rt.rmatch cmd

/-- The typed dispatch body (executed when the generic update handlers did
not abort), starting at the command block: an exact command entry shadows
the regex routes; the first matching regex route runs and returns; with no
match at all the command message falls through to the text block. -/
def dispatchBody (r : Router) (u : Update) (s : St) : St :=
  match u.message with
  | some m =>
    if m.isCommand then
      match clookup r.commandHandlersC m.command with
      | some hs => runCategory r.middlewares hs s
      | none =>
        match findFirstRegex r.commandRegexRoutesC m.command with
        | some rt => runCategory r.middlewares rt.handlers s
        | none => afterCommand r u s
    else afterCommand r u s
  | none => afterCommand r u s

/-- The generic update handlers run first, each an `OnUpdate` closure that
installs `middlewares ++ group` (middlewares read at call time) and runs
it; `IsAborted` is consulted before each closure. -/
def runUpdateHandlers (mws : List Handler) (groups : List (List Handler)) (s : St) : St :=
  match groups with
  | [] => s
  | g :: gs =>
    if s.aborted then s
    else runUpdateHandlers mws gs (runChain (mws ++ g) s)

/-- Dispatch of one update against an already-composed router: generic
update handlers, then — unless aborted — the typed dispatch body. -/
def dispatchUpdate (r : Router) (u : Update) (s : St) : St :=
  let s1 := runUpdateHandlers r.middlewares r.updateHandlers s
  if s1.aborted then s1 else dispatchBody r u s1

/-- `HandleUpdate`: recompose if dirty, allocate a fresh context, dispatch. -/
def handleUpdate (r : Router) (u : Update) : St :=
  dispatchUpdate (composeHandlers r) u initSt

/-- Modelled from the spec's words for claim comparison: "Composition
precomputes, for every registered handler across every category, a single
ready-to-run chain = middleware-snapshot ++ [handler], taken atomically."
Under that reading the executed trace of a category is determined by the
middleware list *as of composition time* (`snap`), not by the list at
execution time. -/
def specSnapshotChainTrace (snap : List Handler) (hs : List Handler) : List Nat :=
  hs.flatMap fun h => snap.map Handler.id ++ [h.id]

/-! ## Concrete instances used in counterexamples and witnesses -/

/-- A router with one text handler (id 5) and no middleware, registered
while the middleware list is empty. -/
def c2Router : Router := mkRouter.text [⟨5, false⟩]

/-- The same router after composition, then with middleware (id 9)
appended to the middleware list *without* recomposition — the situation
the cache claim speaks about (in Go this arises when `Use` runs after
`HandleUpdate`'s dirty check). -/
def c2Raced : Router := { composeHandlers c2Router with middlewares := [⟨9, false⟩] }

/-- A plain text message. -/
def c2Msg : Msg :=
  { text := str "hi", isCommand := false, command := [], location := none }

/-- A plain text-message update. -/
def c2Update : Update := { message := some c2Msg, callbackQuery := none }

/-- A router with one generic location handler (id 3) and one
live-location handler (id 7). -/
def c6Router : Router := (mkRouter.location [⟨3, false⟩]).liveLocation [⟨7, false⟩]

/-- A message update carrying a live location (`LivePeriod = 10 > 0`). -/
def c6Update : Update :=
  { message := some
      { text := [], isCommand := false, command := [],
        location := some { lat := 0, lon := 0, livePeriod := 10 } },
    callbackQuery := none }

/-- Registration for the C1 witness: one middleware (id 1), two callback
routes that both match the subject `user/42`, and a generic callback
handler (id 4; `router.go` has no registration call appending to
`callbackHandlers`, so the field is set directly). -/
def c1Router : Router :=
  { ((mkRouter.use [⟨1, false⟩]).callback (str "user/:id") [⟨2, false⟩]).callback
      (str "user/*") [⟨3, false⟩] with callbackHandlers := [⟨4, false⟩] }

/-- A callback-query update whose subject is `user/42?tab=settings`. -/
def c1Update : Update :=
  { message := none, callbackQuery := some (str "user/42?tab=settings") }

/-- Registration for the C5 witness: exact command `start` (id 4) and a
regex route matching exactly `admin` (id 5). -/
def c5Router : Router :=
  (mkRouter.command (str "start") [⟨4, false⟩]).commandRegex
    (fun c => c == str "admin") [⟨5, false⟩]

/-- A command update `/name`. -/
def cmdUpdate (name : String) : Update :=
  { message := some
      { text := '/' :: str name, isCommand := true, command := str name,
        location := none },
    callbackQuery := none }

/-- Registration for the C10 witness: exact command `start` (id 4), regex
route for `admin` only (id 5), and a text handler (id 6). -/
def c10Router : Router := c5Router.text [⟨6, false⟩]

/-- An aborted context state, for the abort-invariant witness. -/
def abortedSt : St := { initSt with aborted := true }

/-! ## Chain-execution lemmas -/

theorem runChain_cons_true (h : Handler) (rest : List Handler) (st : List Nat)
    (sp sq : List (Str × Str)) :
    runChain (h :: rest) ⟨true, st, sp, sq⟩ = ⟨true, st, sp, sq⟩ := rfl

theorem runChain_cons_false (h : Handler) (rest : List Handler) (st : List Nat)
    (sp sq : List (Str × Str)) :
    runChain (h :: rest) ⟨false, st, sp, sq⟩
      = runChain rest ⟨h.ab, st ++ [h.id], sp, sq⟩ := rfl

theorem runChain_of_aborted (chain : List Handler) (s : St) (h : s.aborted = true) :
    runChain chain s = s := by
  obtain ⟨sab, st, sp, sq⟩ := s
  replace h : sab = true := h
  subst h
  cases chain with
  | nil => rfl
  | cons hd tl => exact runChain_cons_true hd tl st sp sq

theorem runChain_noabort (chain : List Handler) : ∀ s : St,
    (∀ h ∈ chain, h.ab = false) → s.aborted = false →
    runChain chain s = { s with trace := s.trace ++ chain.map Handler.id } := by
  induction chain with
  | nil => intro s _ _; simp [runChain]
  | cons hd tl ih =>
    rintro ⟨sab, st, sp, sq⟩ hab hs
    replace hs : sab = false := hs
    subst hs
    have h1 : hd.ab = false := hab hd (by simp)
    rw [runChain_cons_false, h1,
      ih ⟨false, st ++ [hd.id], sp, sq⟩ (fun h hm => hab h (by simp [hm])) rfl]
    simp

theorem runChain_abort_point (pre : List Handler) : ∀ (a : Handler) (post : List Handler)
    (s : St), a.ab = true → (∀ h ∈ pre, h.ab = false) → s.aborted = false →
    runChain (pre ++ a :: post) s
      = { s with trace := s.trace ++ pre.map Handler.id ++ [a.id], aborted := true } := by
  induction pre with
  | nil =>
    rintro a post ⟨sab, st, sp, sq⟩ ha _ hs
    replace hs : sab = false := hs
    subst hs
    rw [List.nil_append, runChain_cons_false, ha,
      runChain_of_aborted _ ⟨true, st ++ [a.id], sp, sq⟩ rfl]
    simp
  | cons hd tl ih =>
    rintro a post ⟨sab, st, sp, sq⟩ ha hab hs
    replace hs : sab = false := hs
    subst hs
    have h1 : hd.ab = false := hab hd (by simp)
    rw [List.cons_append, runChain_cons_false, h1,
      ih a post ⟨false, st ++ [hd.id], sp, sq⟩ ha (fun h hm => hab h (by simp [hm])) rfl]
    simp

theorem runCategory_of_aborted (mws : List Handler) (hs : List Handler) (s : St)
    (h : s.aborted = true) : runCategory mws hs s = s := by
  cases hs with
  | nil => rfl
  | cons hd tl =>
    simp only [runCategory, runWrapped]
    rw [runChain_of_aborted _ _ h]
    simp [h]

theorem runCategory_noabort (mws : List Handler) (hs : List Handler) : ∀ s : St,
    (∀ h ∈ mws, h.ab = false) → (∀ h ∈ hs, h.ab = false) → s.aborted = false →
    runCategory mws hs s
      = { s with trace := s.trace ++ hs.flatMap fun h => mws.map Handler.id ++ [h.id] } := by
  induction hs with
  | nil => intro s _ _ _; simp [runCategory]
  | cons hd tl ih =>
    rintro ⟨sab, st, sp, sq⟩ hmw hab hs
    replace hs : sab = false := hs
    subst hs
    have h1 : hd.ab = false := hab hd (by simp)
    have hchain : ∀ h ∈ mws ++ [hd], h.ab = false := by
      intro h hm
      rcases List.mem_append.1 hm with h' | h'
      · exact hmw h h'
      · simp at h'; simp [h', h1]
    simp only [runCategory, runWrapped]
    rw [runChain_noabort _ ⟨false, st, sp, sq⟩ hchain rfl]
    simp only [if_neg (fun hcc : false = true => by simp at hcc)]
    rw [ih ⟨false, st ++ (mws ++ [hd]).map Handler.id, sp, sq⟩ hmw
      (fun h hm => hab h (by simp [hm])) rfl]
    simp

theorem runRouteEntry_noabort (mws : List Handler) (rhs : List Handler) (s : St)
    (hmw : ∀ h ∈ mws, h.ab = false) (hrh : ∀ h ∈ rhs, h.ab = false)
    (hs : s.aborted = false) :
    runRouteEntry mws rhs s
      = { s with trace := s.trace ++ mws.map Handler.id ++ rhs.map Handler.id } := by
  obtain ⟨sab, st, sp, sq⟩ := s
  replace hs : sab = false := hs
  subst hs
  simp only [runRouteEntry]
  rw [runChain_noabort _ ⟨false, st, sp, sq⟩ hmw rfl]
  simp only [if_neg (fun hcc : false = true => by simp at hcc)]
  rw [runChain_noabort _ ⟨false, st ++ mws.map Handler.id, sp, sq⟩ hrh rfl]

theorem runUpdateHandlers_of_aborted (mws : List Handler) (groups : List (List Handler))
    (s : St) (h : s.aborted = true) : runUpdateHandlers mws groups s = s := by
  cases groups with
  | nil => rfl
  | cons g gs => simp [runUpdateHandlers, h]

/-! ## Claim C8: composition is idempotent -/

/-- C8: running `composeHandlers` twice in a row without an intervening
registration yields the very same router state as running it once (the
second run takes the clean-flag fast path), hence behaviourally identical
dispatch: the same handlers run in the same order for every update. -/
theorem composeHandlers_idempotent (r : Router) :
    composeHandlers (composeHandlers r) = composeHandlers r
    ∧ ∀ (u : Update) (s : St),
        dispatchUpdate (composeHandlers (composeHandlers r)) u s
          = dispatchUpdate (composeHandlers r) u s := by
  have h1 : composeHandlers (composeHandlers r) = composeHandlers r := by
    by_cases h : r.composedDirty <;> simp [composeHandlers, h]
  exact ⟨h1, fun u s => by rw [h1]⟩

/-! ## Claim C3: abort stops the chain and all later categories -/

/-- C3: if a handler in a chain aborts, the handlers after it in that
chain do not execute (the trace ends at the aborting handler and the
context stays aborted); an aborted context makes every category loop a
no-op; and an aborted context makes the whole remaining dispatch of the
update a no-op — no handler of any later category executes. -/
theorem abort_invariant :
    (∀ (pre : List Handler) (a : Handler) (post : List Handler) (s : St),
        a.ab = true → (∀ h ∈ pre, h.ab = false) → s.aborted = false →
        runChain (pre ++ a :: post) s
          = { s with trace := s.trace ++ pre.map Handler.id ++ [a.id], aborted := true })
    ∧ (∀ (mws hs : List Handler) (s : St), s.aborted = true → runCategory mws hs s = s)
    ∧ (∀ (r : Router) (u : Update) (s : St), s.aborted = true → dispatchUpdate r u s = s) := by
  refine ⟨runChain_abort_point, runCategory_of_aborted, ?_⟩
  intro r u s h
  simp [dispatchUpdate, runUpdateHandlers_of_aborted _ _ _ h, h]

/-- Witness for C3 at concrete inputs: handler 2 aborts, handler 3 after
it never runs; an aborted context is untouched by a category loop and by
a whole dispatch. -/
theorem abort_invariant_witness :
    runChain [⟨1, false⟩, ⟨2, true⟩, ⟨3, false⟩] initSt
        = { initSt with trace := [1, 2], aborted := true }
    ∧ runCategory [] [⟨4, false⟩] abortedSt = abortedSt
    ∧ dispatchUpdate c6Router c6Update abortedSt = abortedSt := by
  refine ⟨?_, ?_, ?_⟩
  · exact (abort_invariant.1 [⟨1, false⟩] ⟨2, true⟩ [⟨3, false⟩] initSt rfl
      (by decide) rfl).trans (by decide)
  · exact abort_invariant.2.1 [] [⟨4, false⟩] abortedSt rfl
  · exact abort_invariant.2.2 c6Router c6Update abortedSt rfl

/-! ## Composition and dispatch unfolding lemmas -/

theorem composeHandlers_of_dirty (r : Router) (h : r.composedDirty = true) :
    composeHandlers r
      = { r with
          textHandlersC := r.textHandlers,
          commandHandlersC := r.commandHandlers,
          commandRegexRoutesC := r.commandRegexRoutes,
          callbackRoutesC := r.callbackRoutes,
          callbackHandlersC := r.callbackHandlers,
          locationHandlersC := r.locationHandlers,
          liveLocationHandlersC := r.liveLocationHandlers,
          locationRangeHandlersC := r.locationRangeHandlers,
          composedDirty := false } := by
  simp [composeHandlers, h]

theorem dispatchUpdate_text (r : Router) (m : Msg) (s : St)
    (hupd : r.updateHandlers = []) (hcmd : m.isCommand = false)
    (htext : m.text ≠ []) (hs : s.aborted = false) :
    dispatchUpdate r ⟨some m, none⟩ s = runCategory r.middlewares r.textHandlersC s := by
  simp [dispatchUpdate, hupd, runUpdateHandlers, hs, dispatchBody, hcmd, afterCommand, htext]

/-! ## Claim C2: when is the middleware part of a composed chain taken? -/

/-- Counterexample to C2: compose while the middleware list is empty, then
append middleware id 9 without recomposing (`c2Raced`); dispatching a text
update executes the chain `[9, 5]` — the middleware appended *after*
composition does take part in the executed chain, and the trace differs
from the spec's snapshot semantics (`specSnapshotChainTrace`), under which
the chain would be `[5]`. -/
theorem middleware_after_compose_takes_part :
    9 ∈ (dispatchUpdate c2Raced c2Update initSt).trace
    ∧ (dispatchUpdate c2Raced c2Update initSt).trace = [9, 5]
    ∧ specSnapshotChainTrace c2Router.middlewares c2Router.textHandlers = [5]
    ∧ (dispatchUpdate c2Raced c2Update initSt).trace
        ≠ specSnapshotChainTrace c2Router.middlewares c2Router.textHandlers := by
  decide

/-- C2 as amended: the chain a composed (cached) entry executes is the
router's middleware list *at execution time* followed by the registered
handler — `runWrapped`, the executor of every composed category entry,
appends exactly `mws ++ [h]` to the trace for whatever middleware list
`mws` it is handed at execution time; consequently middleware installed
after composition, without any recomposition, does take part in the
executed chain, shown end to end on a text dispatch. -/
theorem composed_chain_uses_current_middlewares (r : Router) (mwsNow : List Handler)
    (m : Msg) (hdirty : r.composedDirty = true) (hupd : r.updateHandlers = [])
    (hcmd : m.isCommand = false) (htext : m.text ≠ [])
    (hmw : ∀ h ∈ mwsNow, h.ab = false) (hth : ∀ h ∈ r.textHandlers, h.ab = false) :
    (∀ (h : Handler) (s : St), s.aborted = false → h.ab = false →
        (∀ x ∈ mwsNow, x.ab = false) →
        runWrapped mwsNow h s
          = { s with trace := s.trace ++ mwsNow.map Handler.id ++ [h.id] })
    ∧ (dispatchUpdate { composeHandlers r with middlewares := mwsNow }
        ⟨some m, none⟩ initSt).trace
      = r.textHandlers.flatMap fun h => mwsNow.map Handler.id ++ [h.id] := by
  refine ⟨?_, ?_⟩
  · intro h s hs hab hmw'
    rw [runWrapped, runChain_noabort _ s (by
        intro x hx
        rcases List.mem_append.1 hx with h' | h'
        · exact hmw' x h'
        · simp at h'; simp [h', hab]) hs]
    simp
  have hu : ({ composeHandlers r with middlewares := mwsNow } : Router).updateHandlers = [] := by
    simp [composeHandlers, hdirty, hupd]
  have ht : ({ composeHandlers r with middlewares := mwsNow } : Router).textHandlersC
      = r.textHandlers := by
    simp [composeHandlers, hdirty]
  have hm : ({ composeHandlers r with middlewares := mwsNow } : Router).middlewares
      = mwsNow := by
    simp [composeHandlers, hdirty]
  rw [dispatchUpdate_text _ m initSt hu hcmd htext rfl, hm, ht,
    runCategory_noabort _ _ initSt hmw hth rfl]
  simp [initSt]

/-- Witness for the amended C2: middleware id 9 installed after
composition wraps text handler id 5, both per entry and end to end. -/
theorem composed_chain_uses_current_middlewares_witness :
    runWrapped [⟨9, false⟩] ⟨5, false⟩ initSt
      = { initSt with trace := [9, 5] }
    ∧ (dispatchUpdate { composeHandlers c2Router with middlewares := [⟨9, false⟩] }
        c2Update initSt).trace = [9, 5] := by
  have h := composed_chain_uses_current_middlewares c2Router [⟨9, false⟩] c2Msg rfl rfl rfl
    (by decide) (by decide) (by decide)
  exact ⟨(h.1 ⟨5, false⟩ initSt rfl rfl (by decide)).trans (by decide),
    h.2.trans (by decide)⟩

/-! ## Splitting and joining lemmas -/

theorem splitOnChar_ne_nil (sep : Char) (s : Str) : splitOnChar sep s ≠ [] := by
  cases s with
  | nil => simp [splitOnChar]
  | cons c rest =>
    simp only [splitOnChar]
    by_cases hc : c = sep
    · simp [hc]
    · cases hr : splitOnChar sep rest <;> simp [hc, hr]

theorem mem_splitOnChar (sep : Char) (s : Str) : ∀ p ∈ splitOnChar sep s, sep ∉ p := by
  induction s with
  | nil => simp [splitOnChar]
  | cons c rest ih =>
    intro p hp
    by_cases hc : c = sep
    · rw [show splitOnChar sep (c :: rest) = [] :: splitOnChar sep rest from by
        simp [splitOnChar, hc]] at hp
      rcases List.mem_cons.1 hp with h | h
      · simp [h]
      · exact ih p h
    · cases hr : splitOnChar sep rest with
      | nil => exact absurd hr (splitOnChar_ne_nil sep rest)
      | cons q qs =>
        rw [show splitOnChar sep (c :: rest) = (c :: q) :: qs from by
          simp [splitOnChar, hc, hr]] at hp
        rcases List.mem_cons.1 hp with h | h
        · subst h
          intro hmem
          rcases List.mem_cons.1 hmem with h' | h'
          · exact hc h'.symm
          · exact ih q (by simp [hr]) h'
        · exact ih p (by simp [hr, h])

theorem splitOnChar_no_sep (sep : Char) (s : Str) (h : sep ∉ s) :
    splitOnChar sep s = [s] := by
  induction s with
  | nil => rfl
  | cons c rest ih =>
    have hc : ¬c = sep := fun hcc => h (by simp [hcc])
    have hr := ih (fun hm => h (List.mem_cons_of_mem _ hm))
    simp [splitOnChar, hc, hr]

theorem splitOnChar_sep_cons (sep : Char) (p t : Str) (hp : sep ∉ p) :
    splitOnChar sep (p ++ sep :: t) = p :: splitOnChar sep t := by
  induction p with
  | nil => simp [splitOnChar]
  | cons c p' ih =>
    have hc : ¬c = sep := fun hcc => hp (by simp [hcc])
    have hr := ih (fun hm => hp (List.mem_cons_of_mem _ hm))
    simp [splitOnChar, hc, hr]

theorem splitOnChar_joinPartsBy (sep : Char) (parts : List Str) (hne : parts ≠ [])
    (hfree : ∀ p ∈ parts, sep ∉ p) :
    splitOnChar sep (joinPartsBy sep parts) = parts := by
  induction parts with
  | nil => exact absurd rfl hne
  | cons p ps ih =>
    cases ps with
    | nil => exact splitOnChar_no_sep sep p (hfree p (by simp))
    | cons q rest =>
      rw [joinPartsBy, splitOnChar_sep_cons sep p _ (hfree p (by simp)),
        ih (by simp) (fun x hx => hfree x (by simp [hx]))]

/-! ## Claim C7: malformed percent-encoding in query strings -/

/-- Counterexample to C7: in `a=%zz&b=2` the value `%zz` is malformed;
the stored value for `a` is the empty string — Go's `QueryUnescape`
returns `("", err)` and the error is discarded — not the literal raw
segment `%zz`.  The second pair is still decoded and the parse as a whole
does not fail. -/
theorem malformed_escape_stored_as_empty :
    tlookup (parseQuery (str "a=%zz&b=2")) (str "a") = some []
    ∧ tlookup (parseQuery (str "a=%zz&b=2")) (str "a") ≠ some (str "%zz")
    ∧ tlookup (parseQuery (str "a=%zz&b=2")) (str "b") = some (str "2") := by
  decide

/-- C7 as amended: the parse never fails and handles each `&`-separated
pair independently (`decodePair`); a component whose percent-decoding
fails is stored as the empty string, the decode error being discarded. -/
theorem parse_query_pairwise (pairs : List Str) (hp : ∀ p ∈ pairs, '&' ∉ p) :
    parseQuery (joinPartsBy '&' pairs) = pairs.filterMap decodePair
    ∧ ∀ t : Str, queryUnescape t = none → unescapeOrEmpty t = [] := by
  refine ⟨?_, fun t h => by simp [unescapeOrEmpty, h]⟩
  cases pairs with
  | nil => simp [joinPartsBy, parseQuery]
  | cons p ps =>
    by_cases hj : joinPartsBy '&' (p :: ps) = []
    · have : p = [] ∧ ps = [] := by
        cases ps with
        | nil => exact ⟨hj, rfl⟩
        | cons q rest =>
          rw [joinPartsBy] at hj
          exact absurd hj (by simp)
      obtain ⟨h1, h2⟩ := this
      subst h1; subst h2
      simp [joinPartsBy, parseQuery, decodePair, splitFirstChar]
    · rw [parseQuery, if_neg hj, splitOnChar_joinPartsBy '&' (p :: ps) (by simp) hp]

/-- Witness for the amended C7 at the counterexample input: the pair list
`[a=%zz, b=2]` decodes pairwise, the malformed value decoding to `""`. -/
theorem parse_query_pairwise_witness :
    parseQuery (joinPartsBy '&' [str "a=%zz", str "b=2"])
        = [(str "a", []), (str "b", str "2")]
    ∧ unescapeOrEmpty (str "%zz") = [] := by
  refine ⟨?_, ?_⟩
  · exact (parse_query_pairwise [str "a=%zz", str "b=2"] (by decide)).1.trans (by decide)
  · exact (parse_query_pairwise [] (by decide)).2 (str "%zz") (by decide)

/-! ## Pattern-matching lemmas for claim C4 -/

theorem isParamPart_iff (part : Str) :
    isParamPart part = true ↔ ∃ name, part = ':' :: name := by
  cases part with
  | nil => simp [isParamPart]
  | cons c cs => simp [isParamPart]

theorem paramName_of_not_param (part : Str) (h : isParamPart part = false) :
    paramName part = none := by
  cases part with
  | nil => rfl
  | cons c cs =>
    have hc : ¬c = ':' := by simpa [isParamPart] using h
    simp [paramName, hc]

theorem fillParts_length (parts : List Str) : ∀ vals : List Str,
    (fillParts parts vals).length = parts.length := by
  induction parts with
  | nil => intro vals; rfl
  | cons part rest ih =>
    intro vals
    by_cases hp : isParamPart part
    · cases vals with
      | nil => simp [fillParts, hp, ih]
      | cons v vs => simp [fillParts, hp, ih]
    · simp [fillParts, hp, ih]

theorem fillParts_free (c : Char) (parts : List Str) : ∀ vals : List Str,
    (∀ p ∈ parts, c ∉ p) → (∀ v ∈ vals, c ∉ v) →
    ∀ q ∈ fillParts parts vals, c ∉ q := by
  induction parts with
  | nil => intro vals _ _ q hq; simp [fillParts] at hq
  | cons part rest ih =>
    intro vals hparts hvals q hq
    by_cases hp : isParamPart part
    · cases vals with
      | nil =>
        rw [show fillParts (part :: rest) [] = [] :: fillParts rest [] from by
          simp [fillParts, hp]] at hq
        rcases List.mem_cons.1 hq with h | h
        · simp [h]
        · exact ih [] (fun x hx => hparts x (by simp [hx])) (by simp) q h
      | cons v vs =>
        rw [show fillParts (part :: rest) (v :: vs) = v :: fillParts rest vs from by
          simp [fillParts, hp]] at hq
        rcases List.mem_cons.1 hq with h | h
        · subst h; exact hvals q (by simp)
        · exact ih vs (fun x hx => hparts x (by simp [hx]))
            (fun x hx => hvals x (by simp [hx])) q h
    · rw [show fillParts (part :: rest) vals = part :: fillParts rest vals from by
        simp [fillParts, hp]] at hq
      rcases List.mem_cons.1 hq with h | h
      · subst h; exact hparts q (by simp)
      · exact ih vals (fun x hx => hparts x (by simp [hx])) hvals q h

theorem segsMatchAux_length (parts : List Str) : ∀ (segs : List Seg) (vs : List Str),
    segsMatchAux parts segs = some vs → segs.length ≤ parts.length := by
  induction parts with
  | nil =>
    intro segs vs h
    cases segs with
    | nil => simp
    | cons sg rest => simp [segsMatchAux] at h
  | cons p ps ih =>
    intro segs vs h
    cases segs with
    | nil => simp [segsMatchAux] at h
    | cons sg rest =>
      cases sg with
      | lit t =>
        by_cases hpt : p = t
        · rw [show segsMatchAux (p :: ps) (Seg.lit t :: rest)
              = segsMatchAux ps rest from by simp [segsMatchAux, hpt]] at h
          have := ih rest vs h
          simpa using Nat.succ_le_succ this
        · simp [segsMatchAux, hpt] at h
      | param =>
        by_cases hpe : p = []
        · simp [segsMatchAux, hpe] at h
        · rw [show segsMatchAux (p :: ps) (Seg.param :: rest)
              = (segsMatchAux ps rest).map (fun z => p :: z) from by
            simp [segsMatchAux, hpe]] at h
          cases hm : segsMatchAux ps rest with
          | none => rw [hm] at h; simp at h
          | some vs' =>
            have := ih rest vs' hm
            simpa using Nat.succ_le_succ this
      | wild =>
        cases hm : segsMatchAux ps (Seg.wild :: rest) with
        | some vs' =>
          have := ih (Seg.wild :: rest) vs' hm
          simp only [List.length_cons] at this ⊢
          omega
        | none =>
          rw [show segsMatchAux (p :: ps) (Seg.wild :: rest)
              = segsMatchAux ps rest from by simp [segsMatchAux, hm]] at h
          have := ih rest vs h
          simpa using Nat.succ_le_succ this

theorem segsMatchAux_fill (parts : List Str) : ∀ vals : List Str,
    vals.length = (parts.filterMap paramName).length →
    (∀ v ∈ vals, v ≠ []) →
    segsMatchAux (fillParts parts vals) (parts.map toSeg) = some vals := by
  induction parts with
  | nil =>
    intro vals hlen _
    simp at hlen
    subst hlen
    rfl
  | cons part rest ih =>
    intro vals hlen hne
    by_cases hp : isParamPart part
    · obtain ⟨name, hn⟩ := (isParamPart_iff part).1 hp
      subst hn
      rw [show List.filterMap paramName ((':' :: name) :: rest)
          = name :: rest.filterMap paramName from by simp [paramName]] at hlen
      cases vals with
      | nil => simp at hlen
      | cons v vs =>
        have hv : v ≠ [] := hne v (by simp)
        rw [show fillParts ((':' :: name) :: rest) (v :: vs) = v :: fillParts rest vs from by
          simp [fillParts, isParamPart]]
        rw [show ((':' :: name) :: rest).map toSeg = Seg.param :: rest.map toSeg from by
          simp [toSeg, isParamPart]]
        rw [show segsMatchAux (v :: fillParts rest vs) (Seg.param :: rest.map toSeg)
            = (segsMatchAux (fillParts rest vs) (rest.map toSeg)).map (fun z => v :: z)
          from by simp [segsMatchAux, hv]]
        rw [ih vs (by simpa using hlen) (fun x hx => hne x (by simp [hx]))]
        rfl
    · have hpn : paramName part = none := paramName_of_not_param part (by simpa using hp)
      rw [show List.filterMap paramName (part :: rest) = rest.filterMap paramName from by
        simp [hpn]] at hlen
      rw [show fillParts (part :: rest) vals = part :: fillParts rest vals from by
        simp [fillParts, hp]]
      by_cases hw : part = ['*']
      · rw [show (part :: rest).map toSeg = Seg.wild :: rest.map toSeg from by
          simp [toSeg, hp, hw, isParamPart]]
        have hgreedy : segsMatchAux (fillParts rest vals) (Seg.wild :: rest.map toSeg)
            = none := by
          cases hm : segsMatchAux (fillParts rest vals) (Seg.wild :: rest.map toSeg) with
          | none => rfl
          | some vs' =>
            have hle := segsMatchAux_length _ _ _ hm
            rw [fillParts_length] at hle
            simp at hle
        rw [show segsMatchAux (part :: fillParts rest vals) (Seg.wild :: rest.map toSeg)
            = segsMatchAux (fillParts rest vals) (rest.map toSeg) from by
          simp [segsMatchAux, hgreedy]]
        exact ih vals hlen hne
      · rw [show (part :: rest).map toSeg = Seg.lit part :: rest.map toSeg from by
          simp [toSeg, hp, hw]]
        rw [show segsMatchAux (part :: fillParts rest vals) (Seg.lit part :: rest.map toSeg)
            = segsMatchAux (fillParts rest vals) (rest.map toSeg) from by
          simp [segsMatchAux]]
        exact ih vals hlen hne

/-! ## Last-write-wins lookup on a zipped table -/

theorem tlookup_zip_not_mem (k : Str) (ks : List Str) : ∀ (vs : List Str)
    (acc : Option Str), k ∉ ks →
    (ks.zip vs).foldl (fun a e => if e.1 = k then some e.2 else a) acc = acc := by
  induction ks with
  | nil => intro vs acc _; rfl
  | cons k0 ks' ih =>
    intro vs acc hk
    cases vs with
    | nil => rfl
    | cons v0 vs' =>
      have hne : ¬k0 = k := fun hc => hk (by simp [hc])
      simp only [List.zip_cons_cons, List.foldl_cons, if_neg hne]
      exact ih vs' acc (fun hm => hk (by simp [hm]))

theorem tlookup_zip_get (ks : List Str) : ∀ (vs : List Str) (i : Nat)
    (h1 : i < ks.length) (h2 : i < vs.length), ks.Nodup →
    tlookup (ks.zip vs) (ks.get ⟨i, h1⟩) = some (vs.get ⟨i, h2⟩) := by
  induction ks with
  | nil => intro vs i h1 _ _; simp at h1
  | cons k0 ks' ih =>
    intro vs i h1 h2 hnd
    cases vs with
    | nil => simp at h2
    | cons v0 vs' =>
      cases i with
      | zero =>
        have hk0 : k0 ∉ ks' := (List.nodup_cons.1 hnd).1
        simp only [List.get, List.zip_cons_cons, tlookup, List.foldl_cons, if_pos rfl]
        exact tlookup_zip_not_mem k0 ks' vs' (some v0) hk0
      | succ j =>
        have hkey : (ks'.get ⟨j, by simpa using h1⟩) ∈ ks' := List.get_mem _ _ _
        have hne : ¬k0 = ks'.get ⟨j, by simpa using h1⟩ := by
          intro hc
          exact (List.nodup_cons.1 hnd).1 (hc ▸ hkey)
        simp only [List.get, List.zip_cons_cons, tlookup, List.foldl_cons, if_neg hne]
        exact ih vs' j (by simpa using h1) (by simpa using h2) (List.nodup_cons.1 hnd).2

/-! ## Claim C4: substituted subjects match and bind -/

/-- Counterexample to C4 as stated: the empty string contains no `/`, yet
substituting it for the capture of `user/:id` yields the subject `user/`,
which the compiled pattern — whose capture group is `([^/]+)`, requiring
at least one character — does not match. -/
theorem empty_substitution_fails_to_match :
    buildSubject (str "user/:id") [[]] = str "user/"
    ∧ ('/' : Char) ∉ ([] : Str)
    ∧ matchRoute (compileRoutePattern (str "user/:id"))
        (buildSubject (str "user/:id") [[]]) = none := by
  decide

/-- C4 as amended: for every pattern (with metacharacter-free static
parts, the regime in which the segment model coincides with the compiled
regex) and every substitution of *non-empty* non-`/` strings for its `n`
captures, the generated subject matches the compiled pattern — anchored at
both ends — with the captures equal to the substituted values in
declaration order; and when the declared names are distinct, the parameter
table built from the match binds each name to exactly its substituted
value. -/
theorem route_match_binds_substituted_values (p : Str) (vals : List Str)
    (hsafe : litSafe p)
    (hlen : vals.length = (parseRouteParams p).length)
    (hv : ∀ v ∈ vals, v ≠ [] ∧ '/' ∉ v) :
    matchRoute (compileRoutePattern p) (buildSubject p vals) = some vals
    ∧ ((parseRouteParams p).Nodup →
        ∀ (i : Nat) (h1 : i < (parseRouteParams p).length) (h2 : i < vals.length),
          tlookup (mkParams (parseRouteParams p) vals)
              ((parseRouteParams p).get ⟨i, h1⟩)
            = some (vals.get ⟨i, h2⟩)) := by
  refine ⟨?_, fun hnd i h1 h2 => tlookup_zip_get (parseRouteParams p) vals i h1 h2 hnd⟩
  have hfill_ne : fillParts (splitOnChar '/' p) vals ≠ [] := by
    intro hc
    have hlenf := fillParts_length (splitOnChar '/' p) vals
    rw [hc] at hlenf
    have : splitOnChar '/' p = [] := by
      cases hsp : splitOnChar '/' p with
      | nil => rfl
      | cons a b => rw [hsp] at hlenf; simp at hlenf
    exact splitOnChar_ne_nil '/' p this
  have hfree : ∀ q ∈ fillParts (splitOnChar '/' p) vals, '/' ∉ q :=
    fillParts_free '/' (splitOnChar '/' p) vals (mem_splitOnChar '/' p)
      (fun v hv' => (hv v hv').2)
  show segsMatchAux (splitOnChar '/' (buildSubject p vals))
      ((splitOnChar '/' p).map toSeg) = some vals
  rw [buildSubject, splitOnChar_joinPartsBy '/' _ hfill_ne hfree]
  exact segsMatchAux_fill (splitOnChar '/' p) vals hlen (fun v hv' => (hv v hv').1)

/-- Witness for the amended C4 at the spec's own example: pattern
`user/:id/profile` with substitution `42`. -/
theorem route_match_binds_witness :
    matchRoute (compileRoutePattern (str "user/:id/profile"))
        (buildSubject (str "user/:id/profile") [str "42"]) = some [str "42"]
    ∧ tlookup (mkParams (parseRouteParams (str "user/:id/profile")) [str "42"])
        (str "id") = some (str "42") := by
  have h := route_match_binds_substituted_values (str "user/:id/profile") [str "42"]
    (by decide) (by decide) (by decide)
  exact ⟨h.1, h.2 (by decide) 0 (by decide) (by decide)⟩

/-! ## Dispatch lemmas for the callback and command categories -/

theorem dispatchUpdate_callback (r : Router) (d : Str) (s : St)
    (hupd : r.updateHandlers = []) (hs : s.aborted = false) :
    dispatchUpdate r ⟨none, some d⟩ s = callbackStep r d s := by
  simp [dispatchUpdate, hupd, runUpdateHandlers, hs, dispatchBody, afterCommand, afterText]

theorem runRouteEntry_noabort_mk (mws rhs : List Handler) (st : List Nat)
    (sp sq : List (Str × Str)) (hmw : ∀ h ∈ mws, h.ab = false)
    (hrh : ∀ h ∈ rhs, h.ab = false) :
    runRouteEntry mws rhs ⟨false, st, sp, sq⟩
      = ⟨false, st ++ mws.map Handler.id ++ rhs.map Handler.id, sp, sq⟩ :=
  (runRouteEntry_noabort mws rhs ⟨false, st, sp, sq⟩ hmw hrh rfl).trans rfl

theorem runCategory_noabort_mk (mws hs : List Handler) (st : List Nat)
    (sp sq : List (Str × Str)) (hmw : ∀ h ∈ mws, h.ab = false)
    (hab : ∀ h ∈ hs, h.ab = false) :
    runCategory mws hs ⟨false, st, sp, sq⟩
      = ⟨false, st ++ hs.flatMap (fun h => mws.map Handler.id ++ [h.id]), sp, sq⟩ :=
  (runCategory_noabort mws hs ⟨false, st, sp, sq⟩ hmw hab rfl).trans rfl

theorem runCallbackRoutes_noabort (mws : List Handler) (routes : List CallbackRoute)
    (path : Str) : ∀ (st : List Nat) (sp sq : List (Str × Str)),
    (∀ h ∈ mws, h.ab = false) →
    (∀ rt ∈ routes, ∀ h ∈ rt.handlers, h.ab = false) →
    ∃ sp' : List (Str × Str),
      runCallbackRoutes mws routes path ⟨false, st, sp, sq⟩
        = ⟨false,
            st ++ (routes.filter fun rt =>
                (matchRoute (compileRoutePattern rt.pattern) path).isSome).flatMap
              (fun rt => mws.map Handler.id ++ rt.handlers.map Handler.id),
            sp', sq⟩ := by
  induction routes with
  | nil =>
    intro st sp sq _ _
    exact ⟨sp, by simp [runCallbackRoutes]⟩
  | cons rt rest ih =>
    intro st sp sq hmw hrt
    cases hm : matchRoute (compileRoutePattern rt.pattern) path with
    | some vals =>
      have hre := runRouteEntry_noabort_mk mws rt.handlers st
        (mkParams (parseRouteParams rt.pattern) vals) sq hmw (hrt rt (by simp))
      have hstep : runCallbackRoutes mws (rt :: rest) path ⟨false, st, sp, sq⟩
          = runCallbackRoutes mws rest path
              ⟨false, st ++ mws.map Handler.id ++ rt.handlers.map Handler.id,
                mkParams (parseRouteParams rt.pattern) vals, sq⟩ := by
        simp [runCallbackRoutes, hm, hre]
      obtain ⟨sp', hrec⟩ := ih (st ++ mws.map Handler.id ++ rt.handlers.map Handler.id)
        (mkParams (parseRouteParams rt.pattern) vals) sq hmw
        (fun x hx => hrt x (by simp [hx]))
      refine ⟨sp', ?_⟩
      rw [hstep, hrec,
        show (rt :: rest).filter (fun rt =>
            (matchRoute (compileRoutePattern rt.pattern) path).isSome)
          = rt :: rest.filter (fun rt =>
            (matchRoute (compileRoutePattern rt.pattern) path).isSome) from by
          simp [List.filter, hm]]
      simp
    | none =>
      have hstep : runCallbackRoutes mws (rt :: rest) path ⟨false, st, sp, sq⟩
          = runCallbackRoutes mws rest path ⟨false, st, sp, sq⟩ := by
        simp [runCallbackRoutes, hm]
      obtain ⟨sp', hrec⟩ := ih st sp sq hmw (fun x hx => hrt x (by simp [hx]))
      refine ⟨sp', ?_⟩
      rw [hstep, hrec,
        show (rt :: rest).filter (fun rt =>
            (matchRoute (compileRoutePattern rt.pattern) path).isSome)
          = rest.filter (fun rt =>
            (matchRoute (compileRoutePattern rt.pattern) path).isSome) from by
          simp [List.filter, hm]]

theorem callbackStep_noabort (r : Router) (d : Str) (s : St)
    (hmw : ∀ h ∈ r.middlewares, h.ab = false)
    (hrt : ∀ rt ∈ r.callbackRoutesC, ∀ h ∈ rt.handlers, h.ab = false)
    (hcb : ∀ h ∈ r.callbackHandlersC, h.ab = false) (hs : s.aborted = false) :
    (callbackStep r d s).trace
      = s.trace
        ++ (r.callbackRoutesC.filter fun rt =>
              (matchRoute (compileRoutePattern rt.pattern) (pathOf d)).isSome).flatMap
            (fun rt => r.middlewares.map Handler.id ++ rt.handlers.map Handler.id)
        ++ r.callbackHandlersC.flatMap
            (fun h => r.middlewares.map Handler.id ++ [h.id]) := by
  obtain ⟨sab, st, sp, sq⟩ := s
  replace hs : sab = false := hs
  subst hs
  cases hsp : splitFirstChar '?' d with
  | some pq =>
    obtain ⟨sp', hrec⟩ := runCallbackRoutes_noabort r.middlewares r.callbackRoutesC
      (pathOf d) st sp (parseQuery pq.2) hmw hrt
    have hstep : callbackStep r d ⟨false, st, sp, sq⟩
        = runCategory r.middlewares r.callbackHandlersC
            ⟨false,
              st ++ (r.callbackRoutesC.filter fun rt =>
                  (matchRoute (compileRoutePattern rt.pattern) (pathOf d)).isSome).flatMap
                (fun rt => r.middlewares.map Handler.id ++ rt.handlers.map Handler.id),
              sp', parseQuery pq.2⟩ := by
      simp [callbackStep, hsp, hrec]
    rw [hstep, runCategory_noabort_mk _ _ _ _ _ hmw hcb]
  | none =>
    obtain ⟨sp', hrec⟩ := runCallbackRoutes_noabort r.middlewares r.callbackRoutesC
      (pathOf d) st sp sq hmw hrt
    have hstep : callbackStep r d ⟨false, st, sp, sq⟩
        = runCategory r.middlewares r.callbackHandlersC
            ⟨false,
              st ++ (r.callbackRoutesC.filter fun rt =>
                  (matchRoute (compileRoutePattern rt.pattern) (pathOf d)).isSome).flatMap
                (fun rt => r.middlewares.map Handler.id ++ rt.handlers.map Handler.id),
              sp', sq⟩ := by
      simp [callbackStep, hsp, hrec]
    rw [hstep, runCategory_noabort_mk _ _ _ _ _ hmw hcb]

/-! ## Claim C1: callback routes fan out over all matches -/

/-- C1: for a callback-query update whose subject path is matched by more
than one registered route, and in which no handler aborts, every matching
route's chain executes, in registration order — not only the first
match — followed by the generic callback handlers. -/
theorem callback_routes_fan_out (r : Router) (d : Str)
    (hdirty : r.composedDirty = true) (hupd : r.updateHandlers = [])
    (hmw : ∀ h ∈ r.middlewares, h.ab = false)
    (hrt : ∀ rt ∈ r.callbackRoutes, ∀ h ∈ rt.handlers, h.ab = false)
    (hcb : ∀ h ∈ r.callbackHandlers, h.ab = false)
    (hmulti : 2 ≤ (r.callbackRoutes.filter fun rt =>
        (matchRoute (compileRoutePattern rt.pattern) (pathOf d)).isSome).length) :
    (handleUpdate r ⟨none, some d⟩).trace
      = (r.callbackRoutes.filter fun rt =>
            (matchRoute (compileRoutePattern rt.pattern) (pathOf d)).isSome).flatMap
          (fun rt => r.middlewares.map Handler.id ++ rt.handlers.map Handler.id)
        ++ r.callbackHandlers.flatMap
            (fun h => r.middlewares.map Handler.id ++ [h.id]) := by
  clear hmulti
  have hu : (composeHandlers r).updateHandlers = [] := by
    simp [composeHandlers, hdirty, hupd]
  have hmw' : ∀ h ∈ (composeHandlers r).middlewares, h.ab = false := by
    simpa [composeHandlers, hdirty] using hmw
  have hrt' : ∀ rt ∈ (composeHandlers r).callbackRoutesC, ∀ h ∈ rt.handlers, h.ab = false := by
    simpa [composeHandlers, hdirty] using hrt
  have hcb' : ∀ h ∈ (composeHandlers r).callbackHandlersC, h.ab = false := by
    simpa [composeHandlers, hdirty] using hcb
  rw [handleUpdate, dispatchUpdate_callback _ d initSt hu rfl]
  rw [callbackStep_noabort _ d initSt hmw' hrt' hcb' rfl]
  simp [composeHandlers, hdirty, initSt]

/-- Witness for C1: routes `user/:id` and `user/*` both match the subject
path of `user/42?tab=settings`; both chains run, each wrapped by
middleware 1, then the generic callback handler 4 runs. -/
theorem callback_routes_fan_out_witness :
    (handleUpdate c1Router c1Update).trace = [1, 2, 1, 3, 1, 4] :=
  (callback_routes_fan_out c1Router (str "user/42?tab=settings") rfl rfl
    (by decide) (by decide) (by decide) (by decide)).trans (by decide)

/-! ## Claims C5 and C10: command dispatch -/

theorem findFirstRegex_first (pre : List CommandRegexRoute) (rt : CommandRegexRoute)
    (post : List CommandRegexRoute) (cmd : Str)
    (hpre : ∀ p ∈ pre, p.rmatch cmd = false) (hrt : rt.rmatch cmd = true) :
    findFirstRegex (pre ++ rt :: post) cmd = some rt := by
  induction pre with
  | nil => simp [findFirstRegex, List.find?, hrt]
  | cons p ps ih =>
    have hp : p.rmatch cmd = false := hpre p (by simp)
    rw [List.cons_append,
      show findFirstRegex (p :: (ps ++ rt :: post)) cmd
        = findFirstRegex (ps ++ rt :: post) cmd from by
      simp [findFirstRegex, List.find?, hp]]
    exact ih (fun x hx => hpre x (by simp [hx]))

theorem findFirstRegex_none (routes : List CommandRegexRoute) (cmd : Str)
    (h : ∀ rt ∈ routes, rt.rmatch cmd = false) : findFirstRegex routes cmd = none := by
  rw [findFirstRegex, List.find?_eq_none]
  intro x hx
  simp [h x hx]

theorem dispatchUpdate_command_exact (r : Router) (m : Msg) (s : St)
    (hs' : List Handler) (hupd : r.updateHandlers = []) (hs : s.aborted = false)
    (hcmd : m.isCommand = true) (hhit : clookup r.commandHandlersC m.command = some hs') :
    dispatchUpdate r ⟨some m, none⟩ s = runCategory r.middlewares hs' s := by
  simp [dispatchUpdate, hupd, runUpdateHandlers, hs, dispatchBody, hcmd, hhit]

theorem dispatchUpdate_command_regex (r : Router) (m : Msg) (s : St)
    (rt : CommandRegexRoute) (hupd : r.updateHandlers = []) (hs : s.aborted = false)
    (hcmd : m.isCommand = true) (hmiss : clookup r.commandHandlersC m.command = none)
    (hfind : findFirstRegex r.commandRegexRoutesC m.command = some rt) :
    dispatchUpdate r ⟨some m, none⟩ s = runCategory r.middlewares rt.handlers s := by
  simp [dispatchUpdate, hupd, runUpdateHandlers, hs, dispatchBody, hcmd, hmiss, hfind]

theorem dispatchUpdate_command_fallthrough (r : Router) (m : Msg) (s : St)
    (hupd : r.updateHandlers = []) (hs : s.aborted = false)
    (hcmd : m.isCommand = true) (hmiss : clookup r.commandHandlersC m.command = none)
    (hnof : findFirstRegex r.commandRegexRoutesC m.command = none) (htext : m.text ≠ []) :
    dispatchUpdate r ⟨some m, none⟩ s = runCategory r.middlewares r.textHandlersC s := by
  simp [dispatchUpdate, hupd, runUpdateHandlers, hs, dispatchBody, hcmd, hmiss, hnof,
    afterCommand, htext]

/-- C5: an exact command entry runs its handlers and ends the dispatch —
the regex routes are not tested; absent an exact entry, the regex routes
are tested in registration order and exactly the first route whose regex
matches runs — no later route is tested. -/
theorem command_exact_then_first_regex (r : Router) (m : Msg)
    (hdirty : r.composedDirty = true) (hupd : r.updateHandlers = [])
    (hcmd : m.isCommand = true) (hmw : ∀ h ∈ r.middlewares, h.ab = false) :
    (∀ hs' : List Handler, clookup r.commandHandlers m.command = some hs' →
        (∀ h ∈ hs', h.ab = false) →
        (handleUpdate r ⟨some m, none⟩).trace
          = hs'.flatMap fun h => r.middlewares.map Handler.id ++ [h.id])
    ∧ (∀ (pre : List CommandRegexRoute) (rt : CommandRegexRoute)
          (post : List CommandRegexRoute),
        clookup r.commandHandlers m.command = none →
        r.commandRegexRoutes = pre ++ rt :: post →
        (∀ p ∈ pre, p.rmatch m.command = false) → rt.rmatch m.command = true →
        (∀ h ∈ rt.handlers, h.ab = false) →
        (handleUpdate r ⟨some m, none⟩).trace
          = rt.handlers.flatMap fun h => r.middlewares.map Handler.id ++ [h.id]) := by
  have hu : (composeHandlers r).updateHandlers = [] := by
    simp [composeHandlers, hdirty, hupd]
  have hmw' : ∀ h ∈ (composeHandlers r).middlewares, h.ab = false := by
    simpa [composeHandlers, hdirty] using hmw
  have hct : (composeHandlers r).commandHandlersC = r.commandHandlers := by
    simp [composeHandlers, hdirty]
  have hcr : (composeHandlers r).commandRegexRoutesC = r.commandRegexRoutes := by
    simp [composeHandlers, hdirty]
  have hmm : (composeHandlers r).middlewares = r.middlewares := by
    simp [composeHandlers, hdirty]
  constructor
  · intro hs' hhit habs
    rw [handleUpdate,
      dispatchUpdate_command_exact _ m initSt hs' hu rfl hcmd (by rw [hct]; exact hhit),
      hmm, runCategory_noabort _ _ initSt hmw habs rfl]
    simp [initSt]
  · intro pre rt post hmiss hsplit hpre hrtm habs
    have hfind : findFirstRegex (composeHandlers r).commandRegexRoutesC m.command
        = some rt := by
      rw [hcr, hsplit]
      exact findFirstRegex_first pre rt post m.command hpre hrtm
    rw [handleUpdate,
      dispatchUpdate_command_regex _ m initSt rt hu rfl hcmd (by rw [hct]; exact hmiss)
        hfind,
      hmm, runCategory_noabort _ _ initSt hmw habs rfl]
    simp [initSt]

/-- Witness for C5: with exact entry `start` (handler 4) and a regex
route for `admin` (handler 5), the command `start` runs only handler 4,
and the command `admin` — having no exact entry — runs only handler 5. -/
theorem command_exact_then_first_regex_witness :
    (handleUpdate c5Router (cmdUpdate "start")).trace = [4]
    ∧ (handleUpdate c5Router (cmdUpdate "admin")).trace = [5] := by
  constructor
  · exact ((command_exact_then_first_regex c5Router
      { text := '/' :: str "start", isCommand := true, command := str "start",
        location := none } rfl rfl rfl (by decide)).1 [⟨4, false⟩] (by decide)
      (by decide)).trans (by decide)
  · exact ((command_exact_then_first_regex c5Router
      { text := '/' :: str "admin", isCommand := true, command := str "admin",
        location := none } rfl rfl rfl (by decide)).2 []
      ⟨fun c => c == str "admin", [⟨5, false⟩]⟩ [] (by decide) rfl (by decide)
      (by decide) (by decide)).trans (by decide)

/-- C10: a command message (non-empty text) matching no exact command
entry and no registered command regex falls through to the text category
and executes all registered text handlers. -/
theorem unmatched_command_falls_through_to_text (r : Router) (m : Msg)
    (hdirty : r.composedDirty = true) (hupd : r.updateHandlers = [])
    (hcmd : m.isCommand = true) (htext : m.text ≠ [])
    (hmiss : clookup r.commandHandlers m.command = none)
    (hreg : ∀ rt ∈ r.commandRegexRoutes, rt.rmatch m.command = false)
    (hmw : ∀ h ∈ r.middlewares, h.ab = false)
    (hth : ∀ h ∈ r.textHandlers, h.ab = false) :
    (handleUpdate r ⟨some m, none⟩).trace
      = r.textHandlers.flatMap fun h => r.middlewares.map Handler.id ++ [h.id] := by
  have hu : (composeHandlers r).updateHandlers = [] := by
    simp [composeHandlers, hdirty, hupd]
  have hct : (composeHandlers r).commandHandlersC = r.commandHandlers := by
    simp [composeHandlers, hdirty]
  have hcr : (composeHandlers r).commandRegexRoutesC = r.commandRegexRoutes := by
    simp [composeHandlers, hdirty]
  have hmm : (composeHandlers r).middlewares = r.middlewares := by
    simp [composeHandlers, hdirty]
  have htx : (composeHandlers r).textHandlersC = r.textHandlers := by
    simp [composeHandlers, hdirty]
  rw [handleUpdate,
    dispatchUpdate_command_fallthrough _ m initSt hu rfl hcmd (by rw [hct]; exact hmiss)
      (by rw [hcr]; exact findFirstRegex_none _ _ hreg) htext,
    hmm, htx, runCategory_noabort _ _ initSt hmw hth rfl]
  simp [initSt]

/-- Witness for C10: command `other` matches neither the exact entry
`start` nor the `admin` regex; the text handler 6 runs. -/
theorem unmatched_command_falls_through_witness :
    (handleUpdate c10Router (cmdUpdate "other")).trace = [6] :=
  (unmatched_command_falls_through_to_text c10Router
    { text := '/' :: str "other", isCommand := true, command := str "other",
      location := none } rfl rfl rfl (by decide) (by decide) (by decide) (by decide)
    (by decide)).trans (by decide)

/-! ## Claim C6: the live-location dispatch block is dead code -/

/-- C6 evaluated at the failing input: a message with a live location
(`LivePeriod = 10 > 0`) runs only the generic location handler (id 3);
the registered live-location handler (id 7) never executes, because the
generic location block earlier in `HandleUpdate` returns for every
message with a non-nil location, making the live-location block
unreachable. -/
theorem live_location_handlers_never_run :
    (handleUpdate c6Router c6Update).trace = [3]
    ∧ c6Router.liveLocationHandlers = [⟨7, false⟩]
    ∧ (c6Update.message.map Msg.location) = some (some ⟨0, 0, 10⟩)
    ∧ ¬7 ∈ (handleUpdate c6Router c6Update).trace := by
  decide

end Tgr
